import Mathlib

/-!
# Lotus miner: block-production loop and storage-miner orchestration

A shallow embedding of `miner/miner.go` (the mining loop and the per-round
pipeline) and of `storage/miner.go` (start-up preflight and the election
proof adapter), with the properties of the specification proved about it.

Conventions of the embedding

* Go pointers to `MiningBase` are addresses (indices) into a heap, so that the
  aliasing between the loop variable `cur`, the base a round runs on and
  `m.lastWork` is kept.
* The chain layer behind the `api` interface is a deterministic environment:
  every method answers as a function of the calls made so far and of its
  arguments.  Every call is appended to a call record.
* A Go result pair `(value, error)` of a function of this repository is a
  pair whose error component is `none` for `nil`.  Methods of collaborators
  answer with `Except`: either an error or a usable value.
* Logging is not modelled.
-/

namespace Lotus

/-- Error values.  `ext` is an error handed over by a collaborator or by the
context, `msg` is `errors.New`, `wrap` is `errors.Wrap` / `Errorf` with `%w`. -/
inductive Err where
  | ext (code : Nat)
  | msg (text : String)
  | wrap (text : String) (cause : Err)
  deriving DecidableEq, Repr

/-! ## Definitions: the block miner (`miner/miner.go`) -/

namespace miner

/-- The type `chain.TipSet` is not part of the sources at hand; a tip is taken
with a key (what `Equals` compares) and the value of `Weight()`. -/
structure TipSet where
  key : Nat
  weight : Nat
  deriving DecidableEq, Repr, Inhabited

/-- Byte strings: `chain.Ticket` is `[]byte`; the nil slice is the empty list. -/
abbrev Ticket := List Nat

/-- Byte strings: `chain.ElectionProof` is `[]byte`. -/
abbrev ElectionProof := List Nat

/-- Handle of a `*chain.SignedMessage`. -/
abbrev SignedMessage := Nat

/-- Handle of a non-nil `*chain.BlockMsg`; `Option BlockMsg` is the pointer,
`none` being `nil`. -/
abbrev BlockMsg := Nat

/-- One call of a method of the `api` interface, with its arguments. -/
inductive ApiCall where
  | SubmitNewBlock (blk : Option BlockMsg)
  | PendingMessages (base : TipSet)
  | GetBestTipset
  | LatestTipsets
  | GetChainRandomness (ts : TipSet)
  | CreateBlock (base : TipSet) (tickets : List Ticket) (eproof : ElectionProof)
      (msgs : List SignedMessage)
  deriving DecidableEq, Repr

/-- The `api` interface (lines 15-38): each method answers from the calls made
before it and its arguments.  `LatestTipsets` answers only its error; the
values of the channel are events of the loop. -/
structure Api where
  SubmitNewBlock : List ApiCall → Option BlockMsg → Option Err
  PendingMessages : List ApiCall → TipSet → Except Err (List SignedMessage)
  GetBestTipset : List ApiCall → Except Err TipSet
  LatestTipsets : List ApiCall → Option Err
  GetChainRandomness : List ApiCall → TipSet → Except Err (List Nat)
  CreateBlock : List ApiCall → TipSet → List Ticket → ElectionProof →
    List SignedMessage → Except Err BlockMsg

/-- The struct `MiningBase` (lines 130-133). -/
structure MiningBase where
  ts : TipSet
  tickets : List Ticket
  deriving DecidableEq, Repr, Inhabited

/-- The fields `Delay` and `lastWork` of the struct `Miner` (lines 40-47);
`Delay` is a `time.Duration`, a signed number of nanoseconds, and `lastWork`
is a pointer into the heap.  The field `api` is passed alongside. -/
structure Miner where
  Delay : Int
  lastWork : Option Nat
  deriving DecidableEq, Repr

/-- The memory the miner acts on: the `Miner` struct, the `MiningBase`
objects allocated so far, and the record of the calls made to `api`. -/
structure Mem where
  m : Miner
  heap : List MiningBase
  calls : List ApiCall
  deriving DecidableEq, Repr

/-- Dereference of a `*MiningBase`.  Go stops on an address that was never
allocated; the statements below are about allocated addresses. -/
def Mem.base (s : Mem) (p : Nat) : MiningBase := s.heap.getD p default

/-- What the `select` of `scratchTicket` sees of its two channels, in
nanoseconds from the moment of the call: `doneAfter` is when `ctx.Done()` is
closed (`none`: never, `some 0`: already cancelled), `ctxErr` is `ctx.Err()`,
and `pick` is the choice Go makes when both channels are ready at the same
instant (`true`: the first case). -/
structure SelectEnv where
  doneAfter : Option Nat
  ctxErr : Err
  pick : Bool
  deriving DecidableEq, Repr

/-- The ticket bytes `[]byte("this is a ticket")`. -/
def ticketBytes : Ticket :=
  [116, 104, 105, 115, 32, 105, 115, 32, 97, 32, 116, 105, 99, 107, 101, 116]

/-- The proof bytes `[]byte("election prooooof")`. -/
def electionProofBytes : ElectionProof :=
  [101, 108, 101, 99, 116, 105, 111, 110, 32, 112, 114, 111, 111, 111, 111, 111, 102]

/-- The case `<-ctx.Done()` of the `select` in `scratchTicket` is the one taken:
the context is done strictly before the timer of `time.After(m.Delay)` fires
(a non-positive duration fires at once), or at the same instant and Go picks
that case. -/
def ctxCaseTaken (delay : Int) (env : SelectEnv) : Bool :=
  match env.doneAfter with
  | none => false
  | some c =>
    if c < delay.toNat then true
    else if c = delay.toNat then env.pick
    else false

/-- Lines 198-206, `Miner.scratchTicket`. -/
def scratchTicket (m : Miner) (env : SelectEnv) (_base : Nat) : Ticket × Option Err :=
  if ctxCaseTaken m.Delay env then ([], some env.ctxErr)
  else (ticketBytes, none)

/-- Lines 187-196, `Miner.isWinnerNextRound`: the memory after the call, then
the three results. -/
def isWinnerNextRound (api : Api) (base : Nat) (s : Mem) :
    Mem × Bool × ElectionProof × Option Err :=
  let ts := (s.base base).ts
  let s1 := { s with calls := s.calls ++ [ApiCall.GetChainRandomness ts] }
  match api.GetChainRandomness s.calls ts with
  | .error err => (s1, false, [], some err)
  | .ok _r => (s1, true, electionProofBytes, none)

/-- Lines 182-185, `Miner.submitNullTicket`. -/
def submitNullTicket (base : Nat) (ticket : Ticket) (s : Mem) : Mem :=
  let b := s.base base
  { s with
    heap := s.heap.set base { b with tickets := b.tickets ++ [ticket] }
    m := { s.m with lastWork := some base } }

/-- Lines 208-217, `Miner.createBlock`. -/
def createBlock (api : Api) (base : Nat) (ticket : Ticket) (proof : ElectionProof)
    (s : Mem) : Mem × Option BlockMsg × Option Err :=
  let b := s.base base
  let s1 := { s with calls := s.calls ++ [ApiCall.PendingMessages b.ts] }
  match api.PendingMessages s.calls b.ts with
  | .error err => (s1, none, some (Err.wrap "failed to get pending messages" err))
  | .ok pending =>
    let tickets := b.tickets ++ [ticket]
    let s2 := { s1 with calls := s1.calls ++ [ApiCall.CreateBlock b.ts tickets proof pending] }
    match api.CreateBlock s1.calls b.ts tickets proof pending with
    | .error err => (s2, none, some err)
    | .ok blk => (s2, some blk, none)

/-- Lines 168-179, the part of `Miner.mineOne` that follows the election
check, from its results `win` and `proof`. -/
def mineOneElected (api : Api) (base : Nat) (ticket : Ticket) (win : Bool)
    (proof : ElectionProof) (s : Mem) : Mem × Option BlockMsg × Option Err :=
  if !win then (submitNullTicket base ticket s, none, none)
  else
    match createBlock api base ticket proof s with
    | (s1, _, some err) => (s1, none, some (Err.wrap "failed to create block" err))
    | (s1, b, none) => (s1, b, none)

/-- Lines 156-180, `Miner.mineOne`. -/
def mineOne (api : Api) (env : SelectEnv) (base : Nat) (s : Mem) :
    Mem × Option BlockMsg × Option Err :=
  match scratchTicket s.m env base with
  | (_, some err) => (s, none, some (Err.wrap "scratching ticket failed" err))
  | (ticket, none) =>
    match isWinnerNextRound api base s with
    | (s1, _, _, some err) =>
      (s1, none, some (Err.wrap "failed to check if we win next round" err))
    | (s1, win, proof, none) => mineOneElected api base ticket win proof s1

/-- Lines 70-75 and 98-103, what a goroutine of `Miner.Mine` does with the
results of `mineOne`: the second component is what it writes to `miningDone`,
`none` when it returns without writing. -/
def roundWrites (r : Mem × Option BlockMsg × Option Err) : Mem × Option (Option BlockMsg) :=
  match r with
  | (s1, _, some _err) => (s1, none)
  | (s1, b, none) => (s1, some b)

/-- The body of the goroutines of `Miner.Mine` (lines 68-76 and 96-104): the
round runs `mineOne` and writes its block to `miningDone` unless it failed. -/
def roundTask (api : Api) (env : SelectEnv) (base : Nat) (s : Mem) :
    Mem × Option (Option BlockMsg) :=
  roundWrites (mineOne api env base s)

/-- The state of `Miner.Mine` inside its loop: the memory, the local variable
`cur`, the rounds (goroutines) launched and not yet ended, and whether `Mine`
has returned.  The closure of a round captures the variable `cur` and reads it
when it evaluates the call `m.mineOne(ctx, cur)`: a round is `none` as long as
it has not read `cur`, and `some p` once it has read the pointer `p`, the base
it runs `mineOne` on. -/
structure MineState where
  mem : Mem
  cur : Nat
  rounds : List (Option Nat)
  exited : Bool
  deriving DecidableEq, Repr

/-- The base `cur` points to. -/
def MineState.curBase (s : MineState) : MiningBase := s.mem.base s.cur

/-- Lines 62-76: `cur` is a new base on the first tip and the first round is
launched; its goroutine has not read `cur` yet. -/
def loopInit (mem : Mem) (best : TipSet) : MineState :=
  { mem := { mem with heap := mem.heap ++ [{ ts := best, tickets := [] }] }
    cur := mem.heap.length
    rounds := [none]
    exited := false }

/-- Lines 49-76, `Miner.Mine` up to its loop: `sub`scribing to the tips, then
`first`, the first value of the channel (`none`: the channel is closed).
`none` when `Mine` returns before the loop. -/
def mineStart (api : Api) (mem : Mem) (first : Option TipSet) : Option MineState :=
  match api.LatestTipsets mem.calls with
  | some _err => none
  | none =>
    match first with
    | none => none
    | some best =>
      some (loopInit { mem with calls := mem.calls ++ [ApiCall.LatestTipsets] } best)

/-- Lines 86-88, the tip-update branch of the loop for a received tip. -/
def onTip (s : MineState) (ts : TipSet) : MineState :=
  if ts.weight > s.curBase.ts.weight then
    { s with
      mem := { s.mem with heap := s.mem.heap ++ [{ ts := ts, tickets := [] }] }
      cur := s.mem.heap.length }
  else s

/-- Lines 91-104, the branch of the loop for a value `blk` received from
`miningDone`: the block is submitted, an error of the submission is logged
only, and the next round is launched; its goroutine has not read `cur` yet. -/
def onMiningDone (api : Api) (blk : Option BlockMsg) (s : MineState) : MineState :=
  let _err := api.SubmitNewBlock s.mem.calls blk
  { s with
    mem := { s.mem with calls := s.mem.calls ++ [ApiCall.SubmitNewBlock blk] }
    rounds := s.rounds ++ [none] }

/-- The state of the loop after the round at position `i` has ended with the
memory `mem1` and the loop has received the value `blk` it wrote. -/
def afterCompletion (api : Api) (blk : Option BlockMsg) (s : MineState) (i : Nat)
    (mem1 : Mem) : MineState :=
  onMiningDone api blk { s with mem := mem1, rounds := s.rounds.eraseIdx i }

/-- The events of the loop of `Miner.Mine`: a tip received from the channel,
the channel found closed, the goroutine of the round at position `i` of the
rounds in flight reading the variable `cur` (lines 69 and 97), and that round
running to its end. -/
inductive Event where
  | tip (ts : TipSet)
  | closed
  | reads (i : Nat)
  | round (i : Nat) (env : SelectEnv)
  deriving DecidableEq, Repr

/-- One step of `Miner.Mine` (lines 78-106).  The goroutine of a round reads
`cur` without synchronisation with the loop, so between its launch and that
read any number of tips may be received; it then runs `mineOne` on the base
it read.  A round that ends with an error returns without writing; a round that
ends without error hands its block over the unbuffered channel `miningDone`,
which the loop receives in the same step.  `none`: the event cannot happen in
this state (after `Mine` has returned nothing is followed any more). -/
def step (api : Api) (s : MineState) : Event → Option MineState
  | .tip ts => if s.exited then none else some (onTip s ts)
  | .closed => if s.exited then none else some { s with exited := true }
  | .reads i =>
    if s.exited then none
    else
      match s.rounds[i]? with
      | some none => some { s with rounds := s.rounds.set i (some s.cur) }
      | _ => none
  | .round i env =>
    if s.exited then none
    else
      match s.rounds[i]? with
      | some (some base) =>
        match roundTask api env base s.mem with
        | (mem1, none) => some { s with mem := mem1, rounds := s.rounds.eraseIdx i }
        | (mem1, some blk) => some (afterCompletion api blk s i mem1)
      | _ => none

/-- The loop of `Miner.Mine` run over a sequence of events. -/
def run (api : Api) : MineState → List Event → Option MineState
  | s, [] => some s
  | s, e :: es =>
    match step api s e with
    | none => none
    | some s1 => run api s1 es

/-- The method `Equals` of `chain.TipSet`, which is not part of the sources at
hand: two tips are equal when they have the same key. -/
def TipSet.Equals (a b : TipSet) : Bool := a.key == b.key

/-- Lines 135-154, `Miner.GetBestMiningCandidate`: the memory after the call,
the pointer returned (`none`: nil) and the error. -/
def GetBestMiningCandidate (api : Api) (s : Mem) : Mem × Option Nat × Option Err :=
  let s1 := { s with calls := s.calls ++ [ApiCall.GetBestTipset] }
  match api.GetBestTipset s.calls with
  | .error err => (s1, none, some err)
  | .ok bts =>
    let fresh : Mem × Option Nat × Option Err :=
      ({ s1 with heap := s1.heap ++ [{ ts := bts, tickets := [] }] }, some s1.heap.length, none)
    match s.m.lastWork with
    | none => fresh
    | some p =>
      if (s.base p).ts.Equals bts then (s1, some p, none)
      else if bts.weight ≤ (s.base p).ts.weight then (s1, some p, none)
      else fresh

/-- The invariant of the fold over the tips: the current base is a fresh base
on the earliest of the heaviest tips seen. -/
def EarliestHeaviest (seen : List TipSet) (b : MiningBase) : Prop :=
  b.tickets = [] ∧
  (∀ (j : Nat) (t : TipSet), seen[j]? = some t → t.weight ≤ b.ts.weight) ∧
  ∃ i, seen[i]? = some b.ts ∧ ∀ (j : Nat) (t : TipSet), j < i → seen[j]? = some t → t.weight < b.ts.weight

/-- A memory with nothing allocated, for the concrete runs below. -/
def mem0 : Mem := { m := { Delay := 30, lastWork := none }, heap := [], calls := [] }

/-- The tips of the scenario with weights 10, 10, 15, 12. -/
def scenarioTips : List TipSet :=
  [{ key := 1, weight := 10 }, { key := 2, weight := 10 }, { key := 3, weight := 15 },
    { key := 4, weight := 12 }]

/-- A chain layer that never fails; the block it builds is identified by the
number of tickets it was asked to put into it. -/
def apiOk : Api :=
  { SubmitNewBlock := fun _ _ => none
    PendingMessages := fun _ _ => .ok [7, 8]
    GetBestTipset := fun _ => .ok { key := 1, weight := 10 }
    LatestTipsets := fun _ => none
    GetChainRandomness := fun _ _ => .ok [1, 2, 3]
    CreateBlock := fun _ _ tickets _ _ => .ok tickets.length }

/-- A memory with one base on a tip of weight 10 that holds one null ticket. -/
def mem1 : Mem :=
  { m := { Delay := 30, lastWork := none }
    heap := [{ ts := { key := 1, weight := 10 }, tickets := [[1]] }]
    calls := [] }

/-- A memory with one fresh base on a tip of weight 10. -/
def memFresh : Mem :=
  { m := { Delay := 30, lastWork := none }
    heap := [{ ts := { key := 1, weight := 10 }, tickets := [] }]
    calls := [] }

/-- A chain layer whose `SubmitNewBlock` always fails; the rest never fails. -/
def apiSubmitFails : Api := { apiOk with SubmitNewBlock := fun _ _ => some (Err.ext 1) }

/-- The loop after the first tip of weight 10, once the first round has read
`cur`: the round in flight runs on base 0, and `cur` is base 0. -/
def stateFirstRoundRunning : MineState :=
  { loopInit mem0 { key := 1, weight := 10 } with rounds := [some 0] }

/-- A run of the loop in which a tip update comes between a completion and
the moment the round launched at that completion reads `cur`: the first round
reads `cur` and completes, a tip of weight 15 is received, the second round
reads `cur`, and completes. -/
def raceEvents : List Event :=
  [Event.reads 0, Event.round 0 { doneAfter := none, ctxErr := Err.ext 0, pick := false },
    Event.tip { key := 3, weight := 15 }, Event.reads 0,
    Event.round 0 { doneAfter := none, ctxErr := Err.ext 0, pick := false }]

/-- A `select` in which the context is never done. -/
def envNoCancel : SelectEnv := { doneAfter := none, ctxErr := Err.ext 0, pick := false }

/-- What a step from `s` to `s1` does to the rounds in flight:
a tip or the closing of the channel leaves them as they are; the read of `cur`
by the round in flight launches and ends nothing, that round now has its base;
the end of a round needs that round to be the one in flight, and leaves none
in flight when the round wrote nothing and exactly the new one, just
launched, when it wrote. -/
def RoundsAfterStep (api : Api) (s s1 : MineState) : Event → Prop
  | .tip _ => s1.rounds = s.rounds
  | .closed => s1.rounds = s.rounds
  | .reads i => s.rounds = [none] ∧ i = 0 ∧ s1.rounds = [some s.cur]
  | .round i env =>
    ∃ base, s.rounds = [some base] ∧ i = 0 ∧
      (((roundTask api env base s.mem).2 = none ∧ s1.rounds = []) ∨
        (∃ blk, (roundTask api env base s.mem).2 = some blk ∧ s1.rounds = [none]))

/-- A `select` in which the context is already cancelled. -/
def envCancelled : SelectEnv := { doneAfter := some 0, ctxErr := Err.ext 9, pick := true }

/-- A run of the loop: the first round reads `cur`, a heavier tip, the first
round completes, the second round reads `cur`, a lighter tip, the second round
completes, and the third round reads `cur` and fails on a cancelled context. -/
def scenarioEvents : List Event :=
  [Event.reads 0, Event.tip { key := 3, weight := 15 }, Event.round 0 envNoCancel,
    Event.reads 0, Event.tip { key := 4, weight := 12 }, Event.round 0 envNoCancel,
    Event.reads 0, Event.round 0 envCancelled]

/-- The state the run `scenarioEvents` ends in: two bases, two blocks
submitted, no round in flight. -/
def scenarioEnd : MineState :=
  { mem :=
      { m := { Delay := 30, lastWork := none }
        heap := [{ ts := { key := 1, weight := 10 }, tickets := [] },
          { ts := { key := 3, weight := 15 }, tickets := [] }]
        calls :=
          [ApiCall.LatestTipsets,
            ApiCall.GetChainRandomness { key := 1, weight := 10 },
            ApiCall.PendingMessages { key := 1, weight := 10 },
            ApiCall.CreateBlock { key := 1, weight := 10 } [ticketBytes] electionProofBytes
              [7, 8],
            ApiCall.SubmitNewBlock (some 1),
            ApiCall.GetChainRandomness { key := 3, weight := 15 },
            ApiCall.PendingMessages { key := 3, weight := 15 },
            ApiCall.CreateBlock { key := 3, weight := 15 } [ticketBytes] electionProofBytes
              [7, 8],
            ApiCall.SubmitNewBlock (some 1)] }
    cur := 1
    rounds := []
    exited := false }

/-- The stages of a mining round that can fail. -/
inductive Stage where
  | scratch
  | randomness
  | pending
  | create
  deriving DecidableEq, Repr

/-- The first stage of a round on `base` that fails, read off the `select` of
the ticket scratch and the answers of the chain layer to the calls of the
round in their order; `none` when no stage fails. -/
def stageFailure (api : Api) (env : SelectEnv) (base : Nat) (s : Mem) : Option Stage :=
  let b := s.base base
  if ctxCaseTaken s.m.Delay env then some Stage.scratch
  else
    match api.GetChainRandomness s.calls b.ts with
    | .error _ => some Stage.randomness
    | .ok _ =>
      match api.PendingMessages (s.calls ++ [ApiCall.GetChainRandomness b.ts]) b.ts with
      | .error _ => some Stage.pending
      | .ok msgs =>
        match api.CreateBlock
            (s.calls ++ [ApiCall.GetChainRandomness b.ts, ApiCall.PendingMessages b.ts])
            b.ts (b.tickets ++ [ticketBytes]) electionProofBytes msgs with
        | .error _ => some Stage.create
        | .ok _ => none

/-- A memory whose miner last worked on base 0, a base on a tip of weight 10
that holds two null tickets. -/
def memWorked : Mem :=
  { m := { Delay := 30, lastWork := some 0 }
    heap := [{ ts := { key := 5, weight := 10 }, tickets := [[1], [2]] }]
    calls := [] }

/-- A chain layer whose best tip is a tip of weight 11; it never fails. -/
def apiBestHeavier : Api := { apiOk with GetBestTipset := fun _ => .ok { key := 6, weight := 11 } }

/-- A chain layer whose `GetBestTipset` fails; the rest never fails. -/
def apiBestFails : Api := { apiOk with GetBestTipset := fun _ => .error (Err.ext 3) }

/-- A chain layer whose randomness fetch fails; the rest never fails. -/
def apiRandomnessFails : Api :=
  { apiOk with GetChainRandomness := fun _ _ => .error (Err.ext 2) }

/-- A `select` in which the context is done 10 ns after the call. -/
def envCancelSoon : SelectEnv := { doneAfter := some 10, ctxErr := Err.ext 9, pick := false }

end miner

/-! ## Definitions: the storage miner (`storage/miner.go`) -/

namespace storage

/-- Handle of an `address.Address`. -/
abbrev Address := Nat

/-- Handle of a `*sealing.Sealing`. -/
abbrev Sealing := Nat

/-- Handle of an `*events.Events`. -/
abbrev Events := Nat

/-- What `Miner.Run` does to its collaborators, in order: the wallet query,
the construction of the chain events, the construction of the sealing
subsystem with its arguments after the api (events, miner address, worker
address, datastore, sealer, ticket function), and the goroutine started on
`Run` of the sealing subsystem. -/
inductive Effect where
  | WalletHas (addr : Address)
  | NewEvents
  | SealingNew (evts : Events) (maddr worker : Address) (ds sealer tktFn : Nat)
  | SealingRun (sealing : Sealing)
  deriving DecidableEq, Repr

/-- The collaborators of `Miner.Run`, none of them part of the sources at hand:
the method `WalletHas` of `storageMinerApi` (line 72), `events.NewEvents` and
`sealing.New`. -/
structure Deps where
  WalletHas : Address → Except Err Bool
  NewEvents : Events
  sealingNew : Events → Address → Address → Nat → Nat → Nat → Sealing

/-- The struct `Miner` (lines 33-44) without its field `api`; host, sealer,
datastore and ticket function are handles, `sealing` is a pointer. -/
structure Miner where
  h : Nat
  sealer : Nat
  ds : Nat
  tktFn : Nat
  maddr : Address
  worker : Address
  sealing : Option Sealing
  deriving DecidableEq, Repr

/-- Lines 108-120, `Miner.runPreflightChecks`: the effects so far with the
wallet query added, and the error. -/
def runPreflightChecks (d : Deps) (m : Miner) (tr : List Effect) : List Effect × Option Err :=
  let tr1 := tr ++ [Effect.WalletHas m.worker]
  match d.WalletHas m.worker with
  | .error err => (tr1, some (Err.wrap "failed to check wallet for worker key" err))
  | .ok has =>
    if !has then (tr1, some (Err.msg "key for worker not found in local wallet"))
    else (tr1, none)

/-- Lines 90-101, `Miner.Run`: the miner and the effects after the call, and
the error. -/
def Run (d : Deps) (m : Miner) (tr : List Effect) : Miner × List Effect × Option Err :=
  match runPreflightChecks d m tr with
  | (tr1, some err) => (m, tr1, some (Err.wrap "miner preflight checks failed" err))
  | (tr1, none) =>
    let evts := d.NewEvents
    let sl := d.sealingNew evts m.maddr m.worker m.ds m.sealer m.tktFn
    ({ m with sealing := some sl },
      tr1 ++ [Effect.NewEvents, Effect.SealingNew evts m.maddr m.worker m.ds m.sealer m.tktFn,
        Effect.SealingRun sl],
      none)

/-- Handle of an `abi.SectorInfo`. -/
abbrev SectorInfo := Nat

/-- Handle of an `abi.PoStCandidate`. -/
abbrev PoStCandidate := Nat

/-- The struct `storage.PoStCandidateWithTicket`, not part of the sources at
hand: a candidate with its ticket bytes. -/
structure PoStCandidateWithTicket where
  Candidate : PoStCandidate
  Ticket : List Nat
  deriving DecidableEq, Repr

/-- The struct `abi.PoStProof`, not part of the sources at hand, by its field
`ProofBytes`, the only one the code sets. -/
structure PoStProof where
  ProofBytes : List Nat
  deriving DecidableEq, Repr

/-- One call of `ComputeElectionPoSt` of the prover, with its arguments. -/
structure ProverCall where
  ssi : List SectorInfo
  rand : List Nat
  winners : List PoStCandidate
  deriving DecidableEq, Repr

/-- The method `ComputeElectionPoSt` of `storage.Prover`. -/
structure Prover where
  ComputeElectionPoSt : List SectorInfo → List Nat → List PoStCandidate →
    Except Err (List PoStProof)

/-- The proof bytes `[]byte("valid proof")`. -/
def validProofBytes : List Nat := [118, 97, 108, 105, 100, 32, 112, 114, 111, 111, 102]

/-- Lines 150-153 of `ComputeProof`: the loop that collects the candidates of
the winners. -/
def collectCandidates (winners : List PoStCandidateWithTicket) : List PoStCandidate :=
  winners.foldl (fun owins w => owins ++ [w.Candidate]) []

/-- Lines 144-162, `SectorBuilderEpp.ComputeProof`.  `insecure` is the value
of `build.InsecurePoStValidation`; `tr` are the calls made to the prover so
far.  The nil slice of proofs is the empty list. -/
def ComputeProof (insecure : Bool) (prover : Prover) (ssi : List SectorInfo)
    (rand : List Nat) (winners : List PoStCandidateWithTicket) (tr : List ProverCall) :
    List ProverCall × List PoStProof × Option Err :=
  if insecure then (tr, [{ ProofBytes := validProofBytes }], none)
  else
    let owins := collectCandidates winners
    let tr1 := tr ++ [{ ssi := ssi, rand := rand, winners := owins }]
    match prover.ComputeElectionPoSt ssi rand owins with
    | .error err => (tr1, [], some err)
    | .ok proof => (tr1, proof, none)

/-- Collaborators whose wallet does not hold the worker key. -/
def depsNoKey : Deps :=
  { WalletHas := fun _ => .ok false, NewEvents := 5, sealingNew := fun _ _ _ _ _ _ => 6 }

/-- Collaborators whose wallet holds every key. -/
def depsWithKey : Deps :=
  { WalletHas := fun _ => .ok true, NewEvents := 5, sealingNew := fun _ _ _ _ _ _ => 6 }

/-- A miner that has not been started. -/
def minerNew : Miner :=
  { h := 1, sealer := 2, ds := 3, tktFn := 4, maddr := 100, worker := 200, sealing := none }

/-- A prover that answers with one proof holding the candidates it was given. -/
def proverEcho : Prover :=
  { ComputeElectionPoSt := fun _ _ owins => .ok [{ ProofBytes := owins }] }

end storage

/-! ## Theorems: the block miner -/

namespace miner

/-! ### The tip-update branch -/

theorem curBase_loopInit (mem : Mem) (best : TipSet) :
    (loopInit mem best).curBase = { ts := best, tickets := [] } := by
  simp [loopInit, MineState.curBase, Mem.base, List.getD_eq_getElem?_getD]

theorem curBase_onTip (s : MineState) (ts : TipSet) :
    (onTip s ts).curBase =
      if ts.weight > s.curBase.ts.weight then { ts := ts, tickets := [] } else s.curBase := by
  unfold onTip
  split
  · simp [MineState.curBase, Mem.base, List.getD_eq_getElem?_getD]
  · rfl

theorem onTip_of_le (s : MineState) (ts : TipSet) (h : ts.weight ≤ s.curBase.ts.weight) :
    onTip s ts = s := by
  unfold onTip
  rw [if_neg (by omega)]

theorem earliestHeaviest_fold (rest : List TipSet) :
    ∀ (seen : List TipSet) (s : MineState), EarliestHeaviest seen s.curBase →
      EarliestHeaviest (seen ++ rest) (rest.foldl onTip s).curBase := by
  induction rest with
  | nil => intro seen s h; simpa using h
  | cons t rest ih =>
    intro seen s h
    have key : EarliestHeaviest (seen ++ [t]) (onTip s t).curBase := by
      obtain ⟨htk, hmax, i, hi, hearly⟩ := h
      have hilt : i < seen.length := by
        rcases Nat.lt_or_ge i seen.length with h1 | h1
        · exact h1
        · rw [List.getElem?_eq_none h1] at hi; cases hi
      rw [curBase_onTip]
      by_cases hw : t.weight > s.curBase.ts.weight
      · rw [if_pos hw]
        refine ⟨rfl, ?_, seen.length, by simp, ?_⟩
        · intro j u hj
          rcases Nat.lt_or_ge j seen.length with h1 | h1
          · rw [List.getElem?_append_left h1] at hj
            have := hmax j u hj
            show u.weight ≤ t.weight
            omega
          · rw [List.getElem?_append_right h1] at hj
            have hu : u = t := by
              rcases Nat.eq_zero_or_pos (j - seen.length) with h2 | h2
              · rw [h2] at hj; simpa using hj.symm
              · rw [List.getElem?_eq_none (by simp only [List.length_singleton]; omega)] at hj; cases hj
            rw [hu]
        · intro j u hjlt hj
          rw [List.getElem?_append_left hjlt] at hj
          have := hmax j u hj
          show u.weight < t.weight
          omega
      · rw [if_neg hw]
        refine ⟨htk, ?_, i, ?_, ?_⟩
        · intro j u hj
          rcases Nat.lt_or_ge j seen.length with h1 | h1
          · rw [List.getElem?_append_left h1] at hj
            exact hmax j u hj
          · rw [List.getElem?_append_right h1] at hj
            have hu : u = t := by
              rcases Nat.eq_zero_or_pos (j - seen.length) with h2 | h2
              · rw [h2] at hj; simpa using hj.symm
              · rw [List.getElem?_eq_none (by simp only [List.length_singleton]; omega)] at hj; cases hj
            rw [hu]; omega
        · rw [List.getElem?_append_left hilt]; exact hi
        · intro j u hjlt hj
          rw [List.getElem?_append_left (by omega)] at hj
          exact hearly j u hjlt hj
    have := ih (seen ++ [t]) (onTip s t) key
    simpa using this

/-- Claim C1.  The tip-update branch of `Miner.Mine`, folded over the tips
received after the first one, starting from the base built on the first tip:
the current base is a base without tickets on a tip of the sequence, no tip of
the sequence is heavier than it, and every tip before it in the sequence is
strictly lighter, so it is the earliest tip of maximal weight.  A tip that is
not strictly heavier than the current base changes nothing. -/
theorem C1_current_base_is_earliest_heaviest_tip (mem : Mem) (best : TipSet)
    (rest : List TipSet) :
    (∃ i, (best :: rest)[i]? = some (rest.foldl onTip (loopInit mem best)).curBase.ts ∧
        (∀ (j : Nat) (t : TipSet), (best :: rest)[j]? = some t →
          t.weight ≤ (rest.foldl onTip (loopInit mem best)).curBase.ts.weight) ∧
        (∀ (j : Nat) (t : TipSet), j < i → (best :: rest)[j]? = some t →
          t.weight < (rest.foldl onTip (loopInit mem best)).curBase.ts.weight)) ∧
      (rest.foldl onTip (loopInit mem best)).curBase.tickets = [] ∧
      (∀ (s : MineState) (ts : TipSet), ts.weight ≤ s.curBase.ts.weight → onTip s ts = s) := by
  have h0 : EarliestHeaviest [best] (loopInit mem best).curBase := by
    rw [curBase_loopInit]
    refine ⟨rfl, ?_, 0, rfl, ?_⟩
    · intro j t hj
      cases j with
      | zero => simp at hj; rw [← hj]
      | succ j => simp at hj
    · intro j t hj; omega
  obtain ⟨htk, hmax, i, hi, hearly⟩ := earliestHeaviest_fold rest [best] (loopInit mem best) h0
  exact ⟨⟨i, hi, hmax, hearly⟩, htk, onTip_of_le⟩

theorem C1_current_base_is_earliest_heaviest_tip_witness :
    (∃ i, scenarioTips[i]? = some { key := 3, weight := 15 } ∧
        (∀ (j : Nat) (t : TipSet), scenarioTips[j]? = some t → t.weight ≤ 15) ∧
        (∀ (j : Nat) (t : TipSet), j < i → scenarioTips[j]? = some t → t.weight < 15)) ∧
      ((scenarioTips.tail.foldl onTip
        (loopInit mem0 { key := 1, weight := 10 })).curBase.tickets = []) ∧
      (∀ (s : MineState) (ts : TipSet), ts.weight ≤ s.curBase.ts.weight → onTip s ts = s) :=
  C1_current_base_is_earliest_heaviest_tip mem0 { key := 1, weight := 10 }
    [{ key := 2, weight := 10 }, { key := 3, weight := 15 }, { key := 4, weight := 12 }]

/-- The scenario of the specification, prefix by prefix: the tips the current
base is on after 1, 2, 3 and 4 tips of weights 10, 10, 15, 12. -/
theorem scenario_bases_after_each_tip :
    (List.range 4).map (fun n =>
        (((scenarioTips.tail.take n).foldl onTip
          (loopInit mem0 { key := 1, weight := 10 })).curBase.ts)) =
      [{ key := 1, weight := 10 }, { key := 1, weight := 10 }, { key := 3, weight := 15 },
        { key := 3, weight := 15 }] := by
  decide

/-! ### Losing and winning rounds -/

theorem base_of_getElem? {s : Mem} {p : Nat} {b : MiningBase} (h : s.heap[p]? = some b) :
    s.base p = b := by
  simp [Mem.base, List.getD_eq_getElem?_getD, h]

theorem lt_of_getElem? {s : Mem} {p : Nat} {b : MiningBase} (h : s.heap[p]? = some b) :
    p < s.heap.length := by
  rcases Nat.lt_or_ge p s.heap.length with h1 | h1
  · exact h1
  · rw [List.getElem?_eq_none h1] at h; cases h

theorem submitNullTicket_heap {s : Mem} {p : Nat} {b : MiningBase} (t : Ticket)
    (h : s.heap[p]? = some b) :
    (submitNullTicket p t s).heap[p]? = some { ts := b.ts, tickets := b.tickets ++ [t] } := by
  have hlt := lt_of_getElem? h
  simp [submitNullTicket, base_of_getElem? h, List.getElem?_set, hlt]

theorem submitNullTicket_calls (p : Nat) (t : Ticket) (s : Mem) :
    (submitNullTicket p t s).calls = s.calls := rfl

/-- Claim C2.  A losing round: the part of `mineOne` after an election that is
not won only calls `submitNullTicket` and returns no block and no error.  The
base then holds its previous tickets followed by the ticket of the round, on
the same tip; no other base is touched; `lastWork` points to this base; the
record of calls and `Delay` are as before. -/
theorem C2_losing_round_appends_one_ticket (api : Api) (s : Mem) (base : Nat)
    (b : MiningBase) (ticket : Ticket) (proof : ElectionProof)
    (hb : s.heap[base]? = some b) :
    mineOneElected api base ticket false proof s = (submitNullTicket base ticket s, none, none) ∧
      (submitNullTicket base ticket s).heap[base]? =
        some { ts := b.ts, tickets := b.tickets ++ [ticket] } ∧
      (∀ q : Nat, q ≠ base → (submitNullTicket base ticket s).heap[q]? = s.heap[q]?) ∧
      (submitNullTicket base ticket s).heap.length = s.heap.length ∧
      (submitNullTicket base ticket s).m.lastWork = some base ∧
      (submitNullTicket base ticket s).m.Delay = s.m.Delay ∧
      (submitNullTicket base ticket s).calls = s.calls := by
  refine ⟨rfl, submitNullTicket_heap ticket hb, ?_, ?_, rfl, rfl, rfl⟩
  · intro q hq
    simp [submitNullTicket, List.getElem?_set, Ne.symm hq]
  · simp [submitNullTicket]

theorem C2_losing_round_appends_one_ticket_witness :
    mem1.heap[0]? = some { ts := { key := 1, weight := 10 }, tickets := [[1]] } ∧
      (submitNullTicket 0 [2] mem1).heap[0]? =
        some { ts := { key := 1, weight := 10 }, tickets := [[1], [2]] } ∧
      (submitNullTicket 0 [2] mem1).m.lastWork = some 0 :=
  ⟨rfl,
    (C2_losing_round_appends_one_ticket apiOk mem1 0
      { ts := { key := 1, weight := 10 }, tickets := [[1]] } [2] electionProofBytes rfl).2.1,
    (C2_losing_round_appends_one_ticket apiOk mem1 0
      { ts := { key := 1, weight := 10 }, tickets := [[1]] } [2] electionProofBytes
      rfl).2.2.2.2.1⟩

theorem createBlock_calls (api : Api) (s : Mem) (base : Nat) (b : MiningBase)
    (ticket : Ticket) (proof : ElectionProof) (msgs : List SignedMessage)
    (hb : s.heap[base]? = some b) (hp : api.PendingMessages s.calls b.ts = .ok msgs) :
    (createBlock api base ticket proof s).1 =
      { s with calls := s.calls ++ [ApiCall.PendingMessages b.ts,
          ApiCall.CreateBlock b.ts (b.tickets ++ [ticket]) proof msgs] } := by
  unfold createBlock
  simp only [base_of_getElem? hb, hp]
  split <;> simp

theorem mineOneElected_win_mem (api : Api) (s : Mem) (base : Nat) (ticket : Ticket)
    (proof : ElectionProof) :
    (mineOneElected api base ticket true proof s).1 = (createBlock api base ticket proof s).1 := by
  unfold mineOneElected
  simp only [Bool.not_true, Bool.false_eq_true, if_false]
  split <;> simp_all

/-- Claim C3.  A winning round on a base that holds `k` tickets, once the
pending messages are fetched: the calls made are `PendingMessages` on the tip
of the base and then one `CreateBlock` with that tip, the tickets of the base
in their order followed by the ticket of the round (`k + 1` tickets), the
election proof and the pending messages; the memory is otherwise unchanged, in
particular the tickets of the base.  After three losing rounds on a base
without tickets the request carries the three null tickets in the order of the
rounds and then the winning ticket, four in all, and the one election proof. -/
theorem C3_winning_round_requests_block_with_all_tickets (api : Api) (s : Mem) (base : Nat)
    (b : MiningBase) (ticket : Ticket) (proof : ElectionProof) (msgs : List SignedMessage)
    (hb : s.heap[base]? = some b) (hp : api.PendingMessages s.calls b.ts = .ok msgs) :
    (mineOneElected api base ticket true proof s).1 =
        { s with calls := s.calls ++ [ApiCall.PendingMessages b.ts,
            ApiCall.CreateBlock b.ts (b.tickets ++ [ticket]) proof msgs] } ∧
      (createBlock api base ticket proof s).1 = (mineOneElected api base ticket true proof s).1 ∧
      (b.tickets ++ [ticket]).length = b.tickets.length + 1 ∧
      (∀ i : Nat, i < b.tickets.length → (b.tickets ++ [ticket])[i]? = b.tickets[i]?) ∧
      (∀ t1 t2 t3 : Ticket, b.tickets = [] →
        (mineOneElected api base ticket true proof
            (submitNullTicket base t3 (submitNullTicket base t2
              (submitNullTicket base t1 s)))).1.calls =
          s.calls ++ [ApiCall.PendingMessages b.ts,
            ApiCall.CreateBlock b.ts [t1, t2, t3, ticket] proof msgs]) := by
  refine ⟨?_, ?_, by simp, ?_, ?_⟩
  · rw [mineOneElected_win_mem]; exact createBlock_calls api s base b ticket proof msgs hb hp
  · rw [mineOneElected_win_mem]
  · intro i hi
    rw [List.getElem?_append_left hi]
  · intro t1 t2 t3 he
    have h1 := submitNullTicket_heap t1 hb
    have h2 := submitNullTicket_heap t2 h1
    have h3 := submitNullTicket_heap t3 h2
    rw [mineOneElected_win_mem,
      createBlock_calls api _ base _ ticket proof msgs h3 (by simpa [submitNullTicket_calls] using hp)]
    simp [submitNullTicket_calls, he]

theorem C3_winning_round_requests_block_with_all_tickets_witness :
    memFresh.heap[0]? = some { ts := { key := 1, weight := 10 }, tickets := [] } ∧
      apiOk.PendingMessages memFresh.calls { key := 1, weight := 10 } = .ok [7, 8] ∧
      (mineOneElected apiOk 0 [4] true electionProofBytes
          (submitNullTicket 0 [3] (submitNullTicket 0 [2]
            (submitNullTicket 0 [1] memFresh)))).1.calls =
        [ApiCall.PendingMessages { key := 1, weight := 10 },
          ApiCall.CreateBlock { key := 1, weight := 10 } [[1], [2], [3], [4]]
            electionProofBytes [7, 8]] :=
  ⟨rfl, rfl,
    (C3_winning_round_requests_block_with_all_tickets apiOk memFresh 0
      { ts := { key := 1, weight := 10 }, tickets := [] } [4] electionProofBytes [7, 8]
      rfl rfl).2.2.2.2 [1] [2] [3] rfl⟩

/-! ### The loop -/

theorem rounds_onTip (s : MineState) (ts : TipSet) : (onTip s ts).rounds = s.rounds := by
  unfold onTip
  split <;> rfl

theorem exited_onTip (s : MineState) (ts : TipSet) : (onTip s ts).exited = s.exited := by
  unfold onTip
  split <;> rfl

theorem rounds_foldl_onTip (tips : List TipSet) :
    ∀ s : MineState, (tips.foldl onTip s).rounds = s.rounds := by
  induction tips with
  | nil => intro s; rfl
  | cons t ts ih => intro s; simp only [List.foldl_cons]; rw [ih, rounds_onTip]

theorem exited_foldl_onTip (tips : List TipSet) :
    ∀ s : MineState, (tips.foldl onTip s).exited = s.exited := by
  induction tips with
  | nil => intro s; rfl
  | cons t ts ih => intro s; simp only [List.foldl_cons]; rw [ih, exited_onTip]

/-- While `Mine` has not returned, a run that starts with tips applies the
tip-update branch to each of them in their order. -/
theorem run_tips (api : Api) (tips : List TipSet) :
    ∀ (s : MineState) (es : List Event), s.exited = false →
      run api s (tips.map Event.tip ++ es) = run api (tips.foldl onTip s) es := by
  induction tips with
  | nil => intro s es _; rfl
  | cons t ts ih =>
    intro s es hex
    simp only [List.map_cons, List.cons_append, run, step, hex, Bool.false_eq_true, if_false,
      List.foldl_cons]
    exact ih (onTip s t) es (by rw [exited_onTip]; exact hex)

theorem getElem?_append_length (pre : List (Option Nat)) (x : Option Nat) :
    (pre ++ [x])[pre.length]? = some x := by
  simp

theorem set_append_length (pre : List (Option Nat)) (x y : Option Nat) :
    (pre ++ [x]).set pre.length y = pre ++ [y] := by
  induction pre with
  | nil => rfl
  | cons a pre ih => simp [ih]

/-- The round launched at a completion, reading `cur` after `tips` have been
received: it runs on the base that is current after those tips. -/
theorem run_tips_reads (api : Api) (s : MineState) (pre : List (Option Nat))
    (tips : List TipSet) (hex : s.exited = false) (hr : s.rounds = pre ++ [none]) :
    run api s (tips.map Event.tip ++ [Event.reads pre.length]) =
      some { tips.foldl onTip s with rounds := pre ++ [some (tips.foldl onTip s).cur] } := by
  rw [run_tips api tips s _ hex]
  have hex1 : (tips.foldl onTip s).exited = false := by rw [exited_foldl_onTip]; exact hex
  have hr1 : (tips.foldl onTip s).rounds = pre ++ [none] := by rw [rounds_foldl_onTip]; exact hr
  simp only [run, step, hex1, Bool.false_eq_true, if_false, hr1, getElem?_append_length,
    set_append_length]

/-- The run `raceEvents` on a never failing chain layer, against the reading
of claim C5 that the round launched at a completion runs on the base that is
current at that completion.  When the loop receives the block of the first
round, `cur` is base 0, on the tip of weight 10, and one round is launched,
which has not read `cur`.  A tip of weight 15 is then received and `cur`
becomes base 1.  The launched round reads `cur` after that and runs on base 1:
its calls are made on the tip of weight 15, a base that was not current, and
not allocated, when the round was launched. -/
theorem C5_next_round_runs_on_base_installed_after_its_launch :
    (run apiOk (loopInit mem0 { key := 1, weight := 10 }) (raceEvents.take 2)).map
        (fun s => (s.cur, s.rounds, s.mem.heap.length)) = some (0, [none], 1) ∧
      (run apiOk (loopInit mem0 { key := 1, weight := 10 }) (raceEvents.take 4)).map
        (fun s => (s.cur, s.rounds, s.mem.heap.length)) = some (1, [some 1], 2) ∧
      (run apiOk (loopInit mem0 { key := 1, weight := 10 }) raceEvents).map
        (fun s => s.mem.calls) =
        some [ApiCall.GetChainRandomness { key := 1, weight := 10 },
          ApiCall.PendingMessages { key := 1, weight := 10 },
          ApiCall.CreateBlock { key := 1, weight := 10 } [ticketBytes] electionProofBytes
            [7, 8],
          ApiCall.SubmitNewBlock (some 1),
          ApiCall.GetChainRandomness { key := 3, weight := 15 },
          ApiCall.PendingMessages { key := 3, weight := 15 },
          ApiCall.CreateBlock { key := 3, weight := 15 } [ticketBytes] electionProofBytes
            [7, 8],
          ApiCall.SubmitNewBlock (some 1)] := by
  decide

/-- Claim C5, as amended.  The branch of the loop that receives a round
completion, whatever `SubmitNewBlock` answers: `Mine` has not returned, `cur`,
the heap and the `Miner` struct are as before, the submission is recorded, and
exactly one round is added to the rounds in flight, which has not read `cur`
yet.  In a step of the loop the round that ended leaves the rounds in flight.
The new round runs on the value of `cur` at the moment its goroutine reads it:
after any tips received since the completion, that is the base the tip-update
branch has chosen over those tips, whichever base the ended round ran on. -/
theorem C5_completion_launches_one_round_that_reads_cur_later (api : Api) (s : MineState)
    (blk : Option BlockMsg) :
    (onMiningDone api blk s).exited = s.exited ∧
      (onMiningDone api blk s).cur = s.cur ∧
      (onMiningDone api blk s).mem.heap = s.mem.heap ∧
      (onMiningDone api blk s).mem.m = s.mem.m ∧
      (onMiningDone api blk s).mem.calls = s.mem.calls ++ [ApiCall.SubmitNewBlock blk] ∧
      (onMiningDone api blk s).rounds = s.rounds ++ [none] ∧
      (∀ api2 : Api, onMiningDone api2 blk s = onMiningDone api blk s) ∧
      (∀ (i : Nat) (env : SelectEnv) (base : Nat) (mem1 : Mem),
        s.exited = false → s.rounds[i]? = some (some base) →
        roundTask api env base s.mem = (mem1, some blk) →
        step api s (Event.round i env) = some (afterCompletion api blk s i mem1) ∧
          (afterCompletion api blk s i mem1).exited = false ∧
          (afterCompletion api blk s i mem1).cur = s.cur ∧
          (afterCompletion api blk s i mem1).mem.heap = mem1.heap ∧
          (afterCompletion api blk s i mem1).mem.m = mem1.m ∧
          (afterCompletion api blk s i mem1).mem.calls =
            mem1.calls ++ [ApiCall.SubmitNewBlock blk] ∧
          (afterCompletion api blk s i mem1).rounds = s.rounds.eraseIdx i ++ [none] ∧
          (∀ tips : List TipSet,
            run api (afterCompletion api blk s i mem1)
                (tips.map Event.tip ++ [Event.reads (s.rounds.eraseIdx i).length]) =
              some { tips.foldl onTip (afterCompletion api blk s i mem1) with
                rounds := s.rounds.eraseIdx i ++
                  [some (tips.foldl onTip (afterCompletion api blk s i mem1)).cur] })) := by
  refine ⟨rfl, rfl, rfl, rfl, rfl, rfl, fun _ => rfl, ?_⟩
  intro i env base mem1 hex hr ht
  refine ⟨?_, hex, rfl, rfl, rfl, rfl, rfl, ?_⟩
  · simp [step, hex, hr, ht]
  · intro tips
    exact run_tips_reads api (afterCompletion api blk s i mem1) (s.rounds.eraseIdx i) tips
      hex rfl

theorem C5_completion_launches_one_round_that_reads_cur_later_witness :
    stateFirstRoundRunning.exited = false ∧
      stateFirstRoundRunning.rounds[0]? = some (some 0) ∧
      stateFirstRoundRunning.cur = 0 ∧
      step apiSubmitFails stateFirstRoundRunning (Event.round 0 envNoCancel) =
        some (afterCompletion apiSubmitFails (some 1) stateFirstRoundRunning 0
          (roundTask apiSubmitFails envNoCancel 0 stateFirstRoundRunning.mem).1) ∧
      (afterCompletion apiSubmitFails (some 1) stateFirstRoundRunning 0
          (roundTask apiSubmitFails envNoCancel 0 stateFirstRoundRunning.mem).1).rounds =
        [none] ∧
      (run apiSubmitFails
          (afterCompletion apiSubmitFails (some 1) stateFirstRoundRunning 0
            (roundTask apiSubmitFails envNoCancel 0 stateFirstRoundRunning.mem).1)
          [Event.tip { key := 3, weight := 15 }, Event.reads 0]).map
        (fun s => (s.cur, s.rounds)) = some (1, [some 1]) :=
  ⟨rfl, rfl, rfl,
    ((C5_completion_launches_one_round_that_reads_cur_later apiSubmitFails
      stateFirstRoundRunning (some 1)).2.2.2.2.2.2.2 0 envNoCancel 0
      (roundTask apiSubmitFails envNoCancel 0 stateFirstRoundRunning.mem).1 rfl rfl rfl).1,
    ((C5_completion_launches_one_round_that_reads_cur_later apiSubmitFails
      stateFirstRoundRunning (some 1)).2.2.2.2.2.2.2 0 envNoCancel 0
      (roundTask apiSubmitFails envNoCancel 0 stateFirstRoundRunning.mem).1 rfl rfl
      rfl).2.2.2.2.2.2.1,
    congrArg (Option.map (fun s => (s.cur, s.rounds)))
      (((C5_completion_launches_one_round_that_reads_cur_later apiSubmitFails
        stateFirstRoundRunning (some 1)).2.2.2.2.2.2.2 0 envNoCancel 0
        (roundTask apiSubmitFails envNoCancel 0 stateFirstRoundRunning.mem).1 rfl rfl
        rfl).2.2.2.2.2.2.2 [{ key := 3, weight := 15 }])⟩

theorem rounds_of_getElem?_of_le_one {rounds : List (Option Nat)} {i : Nat} {r : Option Nat}
    (h : rounds[i]? = some r) (hlen : rounds.length ≤ 1) : rounds = [r] ∧ i = 0 := by
  match rounds, hlen with
  | [], _ => simp at h
  | [r0], _ =>
    cases i with
    | zero => simp at h; simp [h]
    | succ i => simp at h

theorem step_rounds (api : Api) (s s1 : MineState) (e : Event)
    (hlen : s.rounds.length ≤ 1) (h : step api s e = some s1) :
    RoundsAfterStep api s s1 e := by
  cases e with
  | tip ts =>
    simp only [step] at h
    split at h
    · cases h
    · cases h; exact rounds_onTip s ts
  | closed =>
    simp only [step] at h
    split at h
    · cases h
    · cases h; rfl
  | reads i =>
    simp only [step] at h
    split at h
    · cases h
    · split at h
      · rename_i hb
        obtain ⟨hr, hi⟩ := rounds_of_getElem?_of_le_one hb hlen
        cases h
        refine ⟨hr, hi, ?_⟩
        simp [hr, hi]
      · cases h
  | round i env =>
    simp only [step] at h
    split at h
    · cases h
    · split at h
      · rename_i base hb
        obtain ⟨hr, hi⟩ := rounds_of_getElem?_of_le_one hb hlen
        refine ⟨base, hr, hi, ?_⟩
        split at h
        · rename_i mem1 heq
          cases h
          left
          simp [heq, hr, hi]
        · rename_i mem1 blk heq
          cases h
          right
          refine ⟨blk, by simp [heq], ?_⟩
          simp [afterCompletion, onMiningDone, hr, hi]
      · cases h

theorem step_rounds_le_one (api : Api) (s s1 : MineState) (e : Event)
    (hlen : s.rounds.length ≤ 1) (h : step api s e = some s1) : s1.rounds.length ≤ 1 := by
  have := step_rounds api s s1 e hlen h
  cases e with
  | tip ts => simp only [RoundsAfterStep] at this; rw [this]; exact hlen
  | closed => simp only [RoundsAfterStep] at this; rw [this]; exact hlen
  | reads i => obtain ⟨_, _, h1⟩ := this; rw [h1]; simp
  | round i env =>
    obtain ⟨base, _, _, h1 | ⟨blk, _, h2⟩⟩ := this
    · rw [h1.2]; simp
    · rw [h2]; simp

theorem run_rounds_le_one (api : Api) (events : List Event) :
    ∀ s s1 : MineState, s.rounds.length ≤ 1 → run api s events = some s1 →
      s1.rounds.length ≤ 1 := by
  induction events with
  | nil => intro s s1 hlen h; simp only [run] at h; cases h; exact hlen
  | cons e es ih =>
    intro s s1 hlen h
    simp only [run] at h
    split at h
    · cases h
    · rename_i s2 hs
      exact ih s2 s1 (step_rounds_le_one api s s2 e hlen hs) h

theorem mineStart_rounds (api : Api) (mem : Mem) (first : Option TipSet) (s0 : MineState)
    (h : mineStart api mem first = some s0) : s0.rounds = [none] := by
  unfold mineStart at h
  split at h
  · cases h
  · split at h
    · cases h
    · cases h; rfl

/-- Claim C6.  In every state `Miner.Mine` reaches from its start by tip
updates, the closing of the tip channel, rounds reading `cur` and rounds
running to their end, at most one round is in flight.  Exactly one round is in
flight at the start.  A tip update leaves the rounds in flight as they are,
and the read of `cur` by the round in flight neither launches nor ends a round.
A step changes the number of rounds in flight only when it is the end of the
round in flight: none is left when that round failed (it wrote nothing), and
exactly one, the round just launched, when the loop received what the round
wrote. -/
theorem C6_at_most_one_round_in_flight (api : Api) (mem : Mem) (first : Option TipSet)
    (s0 s : MineState) (events : List Event)
    (h0 : mineStart api mem first = some s0) (hr : run api s0 events = some s) :
    s0.rounds.length = 1 ∧ s.rounds.length ≤ 1 ∧
      (∀ ts : TipSet, (onTip s ts).rounds = s.rounds) ∧
      (∀ (e : Event) (s1 : MineState), step api s e = some s1 →
        s1.rounds.length ≤ 1 ∧ RoundsAfterStep api s s1 e) := by
  have hs0 := mineStart_rounds api mem first s0 h0
  have hlen0 : s0.rounds.length ≤ 1 := by rw [hs0]; simp
  have hlen := run_rounds_le_one api events s0 s hlen0 hr
  refine ⟨by rw [hs0]; simp, hlen, rounds_onTip s, ?_⟩
  intro e s1 hstep
  exact ⟨step_rounds_le_one api s s1 e hlen hstep, step_rounds api s s1 e hlen hstep⟩

theorem C6_at_most_one_round_in_flight_witness :
    mineStart apiOk mem0 (some { key := 1, weight := 10 }) =
        some (loopInit { mem0 with calls := [ApiCall.LatestTipsets] } { key := 1, weight := 10 }) ∧
      run apiOk (loopInit { mem0 with calls := [ApiCall.LatestTipsets] }
        { key := 1, weight := 10 }) scenarioEvents = some scenarioEnd ∧
      scenarioEnd.rounds.length ≤ 1 :=
  ⟨rfl, by decide,
    (C6_at_most_one_round_in_flight apiOk mem0 (some { key := 1, weight := 10 })
      (loopInit { mem0 with calls := [ApiCall.LatestTipsets] } { key := 1, weight := 10 })
      scenarioEnd scenarioEvents rfl (by decide)).2.1⟩

/-! ### Failing rounds -/

theorem scratchTicket_taken (m : Miner) (env : SelectEnv) (base : Nat)
    (h : ctxCaseTaken m.Delay env = true) :
    scratchTicket m env base = ([], some env.ctxErr) := by
  simp [scratchTicket, h]

theorem scratchTicket_not_taken (m : Miner) (env : SelectEnv) (base : Nat)
    (h : ctxCaseTaken m.Delay env = false) :
    scratchTicket m env base = (ticketBytes, none) := by
  simp [scratchTicket, h]

theorem mineOne_scratch_failed (api : Api) (env : SelectEnv) (base : Nat) (s : Mem)
    (h : ctxCaseTaken s.m.Delay env = true) :
    mineOne api env base s =
      (s, none, some (Err.wrap "scratching ticket failed" env.ctxErr)) := by
  simp [mineOne, scratchTicket_taken _ _ _ h]

theorem mineOne_randomness_failed (api : Api) (env : SelectEnv) (base : Nat) (s : Mem)
    (b : MiningBase) (e : Err) (hb : s.heap[base]? = some b)
    (h : ctxCaseTaken s.m.Delay env = false)
    (hr : api.GetChainRandomness s.calls b.ts = .error e) :
    mineOne api env base s =
      ({ s with calls := s.calls ++ [ApiCall.GetChainRandomness b.ts] }, none,
        some (Err.wrap "failed to check if we win next round" e)) := by
  simp [mineOne, scratchTicket_not_taken _ _ _ h, isWinnerNextRound, base_of_getElem? hb, hr]

theorem mineOne_elected (api : Api) (env : SelectEnv) (base : Nat) (s : Mem)
    (b : MiningBase) (r : List Nat) (hb : s.heap[base]? = some b)
    (h : ctxCaseTaken s.m.Delay env = false)
    (hr : api.GetChainRandomness s.calls b.ts = .ok r) :
    mineOne api env base s =
      mineOneElected api base ticketBytes true electionProofBytes
        { s with calls := s.calls ++ [ApiCall.GetChainRandomness b.ts] } := by
  simp [mineOne, scratchTicket_not_taken _ _ _ h, isWinnerNextRound, base_of_getElem? hb, hr]

theorem mineOneElected_pending_failed (api : Api) (base : Nat) (s : Mem) (b : MiningBase)
    (ticket : Ticket) (proof : ElectionProof) (e : Err) (hb : s.heap[base]? = some b)
    (hp : api.PendingMessages s.calls b.ts = .error e) :
    mineOneElected api base ticket true proof s =
      ({ s with calls := s.calls ++ [ApiCall.PendingMessages b.ts] }, none,
        some (Err.wrap "failed to create block"
          (Err.wrap "failed to get pending messages" e))) := by
  simp [mineOneElected, createBlock, base_of_getElem? hb, hp]

theorem mineOneElected_create_failed (api : Api) (base : Nat) (s : Mem) (b : MiningBase)
    (ticket : Ticket) (proof : ElectionProof) (msgs : List SignedMessage) (e : Err)
    (hb : s.heap[base]? = some b)
    (hp : api.PendingMessages s.calls b.ts = .ok msgs)
    (hc : api.CreateBlock (s.calls ++ [ApiCall.PendingMessages b.ts]) b.ts
      (b.tickets ++ [ticket]) proof msgs = .error e) :
    mineOneElected api base ticket true proof s =
      ({ s with calls := s.calls ++ [ApiCall.PendingMessages b.ts,
          ApiCall.CreateBlock b.ts (b.tickets ++ [ticket]) proof msgs] }, none,
        some (Err.wrap "failed to create block" e)) := by
  simp [mineOneElected, createBlock, base_of_getElem? hb, hp, hc]

theorem mineOneElected_created (api : Api) (base : Nat) (s : Mem) (b : MiningBase)
    (ticket : Ticket) (proof : ElectionProof) (msgs : List SignedMessage) (blk : BlockMsg)
    (hb : s.heap[base]? = some b)
    (hp : api.PendingMessages s.calls b.ts = .ok msgs)
    (hc : api.CreateBlock (s.calls ++ [ApiCall.PendingMessages b.ts]) b.ts
      (b.tickets ++ [ticket]) proof msgs = .ok blk) :
    mineOneElected api base ticket true proof s =
      ({ s with calls := s.calls ++ [ApiCall.PendingMessages b.ts,
          ApiCall.CreateBlock b.ts (b.tickets ++ [ticket]) proof msgs] }, some blk, none) := by
  simp [mineOneElected, createBlock, base_of_getElem? hb, hp, hc]

/-- Claim C7.  A round on an allocated base returns an error exactly when one
of its stages fails, and then it returns no block, the goroutine writes
nothing to `miningDone`, and the heap (so the tickets of every base) and the
`Miner` struct (so `lastWork`) are as before.  The calls made stop at the
failed stage: none when the ticket scratch fails, `GetChainRandomness` only
when that fails, then `PendingMessages`, then `CreateBlock`.  When no stage
fails the round returns a block and no error, and that block is written. -/
theorem C7_round_fails_exactly_when_a_stage_fails (api : Api) (env : SelectEnv) (base : Nat)
    (s : Mem) (b : MiningBase) (hb : s.heap[base]? = some b) :
    ((mineOne api env base s).2.2 ≠ none ↔ stageFailure api env base s ≠ none) ∧
      ((mineOne api env base s).2.2 ≠ none →
        (mineOne api env base s).2.1 = none ∧
        roundTask api env base s = ((mineOne api env base s).1, none) ∧
        (mineOne api env base s).1.heap = s.heap ∧
        (mineOne api env base s).1.m = s.m) ∧
      ((mineOne api env base s).2.2 = none →
        ∃ blk, (mineOne api env base s).2.1 = some blk ∧
          roundTask api env base s = ((mineOne api env base s).1, some (some blk))) ∧
      (stageFailure api env base s = some Stage.scratch →
        (mineOne api env base s).1.calls = s.calls) ∧
      (stageFailure api env base s = some Stage.randomness →
        (mineOne api env base s).1.calls = s.calls ++ [ApiCall.GetChainRandomness b.ts]) ∧
      (stageFailure api env base s = some Stage.pending →
        (mineOne api env base s).1.calls =
          s.calls ++ [ApiCall.GetChainRandomness b.ts, ApiCall.PendingMessages b.ts]) ∧
      (stageFailure api env base s = some Stage.create →
        ∃ msgs, (mineOne api env base s).1.calls =
          s.calls ++ [ApiCall.GetChainRandomness b.ts, ApiCall.PendingMessages b.ts,
            ApiCall.CreateBlock b.ts (b.tickets ++ [ticketBytes]) electionProofBytes msgs]) := by
  have hbase := base_of_getElem? hb
  cases hc : ctxCaseTaken s.m.Delay env with
  | true =>
    rw [mineOne_scratch_failed api env base s hc]
    simp [stageFailure, hc, roundTask, roundWrites, mineOne_scratch_failed api env base s hc]
  | false =>
    cases hr : api.GetChainRandomness s.calls b.ts with
    | error e =>
      rw [mineOne_randomness_failed api env base s b e hb hc hr]
      simp [stageFailure, hc, hr, hbase, roundTask, roundWrites,
        mineOne_randomness_failed api env base s b e hb hc hr]
    | ok r =>
      have hm := mineOne_elected api env base s b r hb hc hr
      have hb1 : ({ s with calls := s.calls ++ [ApiCall.GetChainRandomness b.ts] } : Mem).heap[base]?
          = some b := hb
      cases hp : api.PendingMessages (s.calls ++ [ApiCall.GetChainRandomness b.ts]) b.ts with
      | error e =>
        have h2 := mineOneElected_pending_failed api base _ b ticketBytes electionProofBytes e
          hb1 hp
        rw [h2] at hm
        rw [hm]
        simp [stageFailure, hc, hr, hp, hbase, roundTask, roundWrites, hm]
      | ok msgs =>
        cases hcr : api.CreateBlock
            (s.calls ++ [ApiCall.GetChainRandomness b.ts, ApiCall.PendingMessages b.ts])
            b.ts (b.tickets ++ [ticketBytes]) electionProofBytes msgs with
        | error e =>
          have h2 := mineOneElected_create_failed api base _ b ticketBytes electionProofBytes
            msgs e hb1 hp (by simpa using hcr)
          rw [h2] at hm
          rw [hm]
          simp [stageFailure, hc, hr, hp, hcr, hbase, roundTask, roundWrites, hm]
        | ok blk =>
          have h2 := mineOneElected_created api base _ b ticketBytes electionProofBytes
            msgs blk hb1 hp (by simpa using hcr)
          rw [h2] at hm
          rw [hm]
          simp [stageFailure, hc, hr, hp, hcr, hbase, roundTask, roundWrites, hm]

theorem C7_round_fails_exactly_when_a_stage_fails_witness :
    memFresh.heap[0]? = some { ts := { key := 1, weight := 10 }, tickets := [] } ∧
      stageFailure apiRandomnessFails envNoCancel 0 memFresh = some Stage.randomness ∧
      (mineOne apiRandomnessFails envNoCancel 0 memFresh).1.calls =
        [ApiCall.GetChainRandomness { key := 1, weight := 10 }] ∧
      roundTask apiRandomnessFails envNoCancel 0 memFresh =
        ((mineOne apiRandomnessFails envNoCancel 0 memFresh).1, none) :=
  ⟨rfl, rfl,
    (C7_round_fails_exactly_when_a_stage_fails apiRandomnessFails envNoCancel 0 memFresh
      { ts := { key := 1, weight := 10 }, tickets := [] } rfl).2.2.2.2.1 rfl,
    ((C7_round_fails_exactly_when_a_stage_fails apiRandomnessFails envNoCancel 0 memFresh
      { ts := { key := 1, weight := 10 }, tickets := [] } rfl).2.1 (by decide)).2.1⟩

/-- A round on an allocated base never writes a nil block to `miningDone`:
`isWinnerNextRound` answers `true` whenever it answers without error, so
`mineOne` does not reach its branch of lines 168-171, and a round that writes
writes the block of `CreateBlock`. -/
theorem roundTask_never_writes_nil (api : Api) (env : SelectEnv) (base : Nat) (s : Mem)
    (b : MiningBase) (hb : s.heap[base]? = some b) :
    (roundTask api env base s).2 ≠ some none := by
  cases hc : ctxCaseTaken s.m.Delay env with
  | true => simp [roundTask, roundWrites, mineOne_scratch_failed api env base s hc]
  | false =>
    cases hr : api.GetChainRandomness s.calls b.ts with
    | error e =>
      simp [roundTask, roundWrites, mineOne_randomness_failed api env base s b e hb hc hr]
    | ok r =>
      have hm := mineOne_elected api env base s b r hb hc hr
      have hb1 : ({ s with calls := s.calls ++ [ApiCall.GetChainRandomness b.ts] } : Mem).heap[base]?
          = some b := hb
      cases hp : api.PendingMessages (s.calls ++ [ApiCall.GetChainRandomness b.ts]) b.ts with
      | error e =>
        rw [mineOneElected_pending_failed api base _ b ticketBytes electionProofBytes e hb1 hp]
          at hm
        simp [roundTask, roundWrites, hm]
      | ok msgs =>
        cases hcr : api.CreateBlock
            (s.calls ++ [ApiCall.GetChainRandomness b.ts, ApiCall.PendingMessages b.ts])
            b.ts (b.tickets ++ [ticketBytes]) electionProofBytes msgs with
        | error e =>
          rw [mineOneElected_create_failed api base _ b ticketBytes electionProofBytes
            msgs e hb1 hp (by simpa using hcr)] at hm
          simp [roundTask, roundWrites, hm]
        | ok blk =>
          rw [mineOneElected_created api base _ b ticketBytes electionProofBytes
            msgs blk hb1 hp (by simpa using hcr)] at hm
          simp [roundTask, roundWrites, hm]

/-- Claim C8.  With the instants of the `select` counted from the call: when
the context is done strictly before `Delay` has elapsed, `scratchTicket`
returns the nil ticket and the error of the context.  It returns either that
or the ticket with no error, never a ticket with an error.  When it returns
without error the context was not done before `Delay` elapsed: it is never
done, or done no earlier than the timer fires.  When the context is never done,
or done strictly after the timer fires (a timer of non-positive `Delay` fires at
the call), the ticket is returned.  (When both channels become ready at the
same instant Go takes either case.) -/
theorem C8_scratchTicket_respects_cancellation (m : Miner) (env : SelectEnv) (base : Nat) :
    (∀ c : Nat, env.doneAfter = some c → (c : Int) < m.Delay →
        scratchTicket m env base = ([], some env.ctxErr)) ∧
      (scratchTicket m env base = ([], some env.ctxErr) ∨
        scratchTicket m env base = (ticketBytes, none)) ∧
      ((scratchTicket m env base).2 = none →
        (scratchTicket m env base).1 = ticketBytes ∧
        (env.doneAfter = none ∨ ∃ c : Nat, env.doneAfter = some c ∧ m.Delay ≤ (c : Int))) ∧
      (env.doneAfter = none → scratchTicket m env base = (ticketBytes, none)) ∧
      (∀ c : Nat, env.doneAfter = some c → m.Delay.toNat < c →
        scratchTicket m env base = (ticketBytes, none)) ∧
      ticketBytes ≠ [] := by
  refine ⟨?_, ?_, ?_, ?_, ?_, by decide⟩
  · intro c hc hlt
    apply scratchTicket_taken
    have : c < m.Delay.toNat := by omega
    simp [ctxCaseTaken, hc, this]
  · cases h : ctxCaseTaken m.Delay env with
    | true => exact Or.inl (scratchTicket_taken m env base h)
    | false => exact Or.inr (scratchTicket_not_taken m env base h)
  · intro hnone
    cases h : ctxCaseTaken m.Delay env with
    | true => rw [scratchTicket_taken m env base h] at hnone; cases hnone
    | false =>
      refine ⟨by rw [scratchTicket_not_taken m env base h], ?_⟩
      cases hd : env.doneAfter with
      | none => exact Or.inl rfl
      | some c =>
        refine Or.inr ⟨c, rfl, ?_⟩
        by_contra hlt
        have : c < m.Delay.toNat := by omega
        simp [ctxCaseTaken, hd, this] at h
  · intro hd
    apply scratchTicket_not_taken
    simp [ctxCaseTaken, hd]
  · intro c hd hlt
    apply scratchTicket_not_taken
    have h1 : ¬ c < m.Delay.toNat := by omega
    have h2 : ¬ c = m.Delay.toNat := by omega
    simp [ctxCaseTaken, hd, h1, h2]

theorem C8_scratchTicket_respects_cancellation_witness :
    envCancelSoon.doneAfter = some 10 ∧ ((10 : Nat) : Int) < mem0.m.Delay ∧
      scratchTicket mem0.m envCancelSoon 0 = ([], some (Err.ext 9)) :=
  ⟨rfl, by decide,
    (C8_scratchTicket_respects_cancellation mem0.m envCancelSoon 0).1 10 rfl (by decide)⟩

/-! ### The best mining candidate -/

theorem getBest_cached (api : Api) (s : Mem) (p : Nat) (b : MiningBase) (bts : TipSet)
    (hl : s.m.lastWork = some p) (hb : s.heap[p]? = some b)
    (hg : api.GetBestTipset s.calls = .ok bts)
    (hc : b.ts.Equals bts = true ∨ bts.weight ≤ b.ts.weight) :
    GetBestMiningCandidate api s =
      ({ s with calls := s.calls ++ [ApiCall.GetBestTipset] }, some p, none) := by
  unfold GetBestMiningCandidate
  simp only [hg, hl, base_of_getElem? hb]
  rcases hc with h | h
  · simp [h]
  · split
    · rfl
    · simp [h]

theorem getBest_fresh (api : Api) (s : Mem) (bts : TipSet)
    (hg : api.GetBestTipset s.calls = .ok bts)
    (hc : s.m.lastWork = none ∨ ∃ p b, s.m.lastWork = some p ∧ s.heap[p]? = some b ∧
      b.ts.Equals bts = false ∧ b.ts.weight < bts.weight) :
    GetBestMiningCandidate api s =
      ({ s with
          heap := s.heap ++ [{ ts := bts, tickets := [] }]
          calls := s.calls ++ [ApiCall.GetBestTipset] }, some s.heap.length, none) := by
  unfold GetBestMiningCandidate
  rcases hc with h | ⟨p, b, hl, hb, he, hw⟩
  · simp only [hg, h]
  · have hnle : ¬ bts.weight ≤ b.ts.weight := by omega
    simp [hg, hl, base_of_getElem? hb, he, hnle]

/-- Claim C11.  `GetBestMiningCandidate` with a cached base, `lastWork`
pointing to an allocated base, and a best tip that equals the tip of that base
or is not heavier than it: the call returns the pointer `lastWork`, no error,
and changes nothing but the record of calls, so the base still holds all its
tickets; a second call whose best tip again equals the tip of the cached base
or is not heavier returns the same pointer with the same memory, one more call
recorded.  With a best tip that is different and strictly heavier, or with no
cached base, the call returns a new base on the best tip without tickets, at
an address other than that of the cached base, and leaves `lastWork` and the
bases allocated before as they are.  An error of `GetBestTipset` is returned
as it is with a nil base, and nothing is allocated. -/
theorem C11_best_candidate_cached_unless_heavier_tip (api : Api) (s : Mem) :
    (∀ (p : Nat) (b : MiningBase) (bts : TipSet), s.m.lastWork = some p →
        s.heap[p]? = some b → api.GetBestTipset s.calls = .ok bts →
        (b.ts.Equals bts = true ∨ bts.weight ≤ b.ts.weight) →
        GetBestMiningCandidate api s =
            ({ s with calls := s.calls ++ [ApiCall.GetBestTipset] }, some p, none) ∧
          (GetBestMiningCandidate api s).1.heap[p]? = some b ∧
          (GetBestMiningCandidate api s).1.heap = s.heap ∧
          (GetBestMiningCandidate api s).1.m = s.m ∧
          (∀ bts2 : TipSet,
            api.GetBestTipset (s.calls ++ [ApiCall.GetBestTipset]) = .ok bts2 →
            (b.ts.Equals bts2 = true ∨ bts2.weight ≤ b.ts.weight) →
            GetBestMiningCandidate api (GetBestMiningCandidate api s).1 =
              ({ s with calls := s.calls ++ [ApiCall.GetBestTipset, ApiCall.GetBestTipset] },
                some p, none))) ∧
      (∀ (p : Nat) (b : MiningBase) (bts : TipSet), s.m.lastWork = some p →
        s.heap[p]? = some b → api.GetBestTipset s.calls = .ok bts →
        b.ts.Equals bts = false → b.ts.weight < bts.weight →
        GetBestMiningCandidate api s =
            ({ s with
                heap := s.heap ++ [{ ts := bts, tickets := [] }]
                calls := s.calls ++ [ApiCall.GetBestTipset] }, some s.heap.length, none) ∧
          p ≠ s.heap.length ∧
          (GetBestMiningCandidate api s).1.heap[p]? = some b) ∧
      (∀ bts : TipSet, s.m.lastWork = none → api.GetBestTipset s.calls = .ok bts →
        GetBestMiningCandidate api s =
          ({ s with
              heap := s.heap ++ [{ ts := bts, tickets := [] }]
              calls := s.calls ++ [ApiCall.GetBestTipset] }, some s.heap.length, none)) ∧
      (∀ e : Err, api.GetBestTipset s.calls = .error e →
        GetBestMiningCandidate api s =
          ({ s with calls := s.calls ++ [ApiCall.GetBestTipset] }, none, some e)) := by
  refine ⟨?_, ?_, ?_, ?_⟩
  · intro p b bts hl hb hg hc
    have h1 := getBest_cached api s p b bts hl hb hg hc
    refine ⟨h1, by rw [h1]; exact hb, by rw [h1], by rw [h1], ?_⟩
    intro bts2 hg2 hc2
    rw [h1]
    have h2 := getBest_cached api { s with calls := s.calls ++ [ApiCall.GetBestTipset] } p b bts2
      hl hb hg2 hc2
    rw [h2]
    simp
  · intro p b bts hl hb hg he hw
    have h1 := getBest_fresh api s bts hg (Or.inr ⟨p, b, hl, hb, he, hw⟩)
    have hlt := lt_of_getElem? hb
    refine ⟨h1, by omega, ?_⟩
    rw [h1]
    show (s.heap ++ [{ ts := bts, tickets := [] }])[p]? = some b
    rw [List.getElem?_append_left hlt]
    exact hb
  · intro bts hl hg
    exact getBest_fresh api s bts hg (Or.inl hl)
  · intro e hg
    unfold GetBestMiningCandidate
    simp only [hg]

theorem C11_best_candidate_cached_unless_heavier_tip_witness :
    memWorked.m.lastWork = some 0 ∧
      memWorked.heap[0]? = some { ts := { key := 5, weight := 10 }, tickets := [[1], [2]] } ∧
      apiOk.GetBestTipset memWorked.calls = .ok { key := 1, weight := 10 } ∧
      GetBestMiningCandidate apiOk memWorked =
        ({ memWorked with calls := [ApiCall.GetBestTipset] }, some 0, none) ∧
      GetBestMiningCandidate apiOk (GetBestMiningCandidate apiOk memWorked).1 =
        ({ memWorked with calls := [ApiCall.GetBestTipset, ApiCall.GetBestTipset] },
          some 0, none) ∧
      GetBestMiningCandidate apiBestHeavier memWorked =
        ({ memWorked with
            heap := memWorked.heap ++ [{ ts := { key := 6, weight := 11 }, tickets := [] }]
            calls := [ApiCall.GetBestTipset] }, some 1, none) :=
  ⟨rfl, rfl, rfl,
    ((C11_best_candidate_cached_unless_heavier_tip apiOk memWorked).1 0
      { ts := { key := 5, weight := 10 }, tickets := [[1], [2]] } { key := 1, weight := 10 }
      rfl rfl rfl (Or.inr (by decide))).1,
    ((C11_best_candidate_cached_unless_heavier_tip apiOk memWorked).1 0
      { ts := { key := 5, weight := 10 }, tickets := [[1], [2]] } { key := 1, weight := 10 }
      rfl rfl rfl (Or.inr (by decide))).2.2.2.2 { key := 1, weight := 10 } rfl
      (Or.inr (by decide)),
    ((C11_best_candidate_cached_unless_heavier_tip apiBestHeavier memWorked).2.1 0
      { ts := { key := 5, weight := 10 }, tickets := [[1], [2]] } { key := 6, weight := 11 }
      rfl rfl rfl rfl (by decide)).1⟩

end miner

/-! ## Theorems: the storage miner -/

namespace storage

/-! ### Start-up of the storage miner -/

/-- Claim C9.  `Run` returns an error exactly when `WalletHas` for the worker
address fails or answers false.  In that case the miner is as before, so its
field `sealing` is, and the wallet query is the only effect: the sealing
subsystem is neither constructed nor started.  When the wallet has the key,
`Run` constructs the events and the sealing subsystem from the fields of the
miner, stores it in `sealing`, starts it, and returns no error. -/
theorem C9_run_fails_closed_without_worker_key (d : Deps) (m : Miner) (tr : List Effect) :
    ((Run d m tr).2.2 ≠ none ↔
        ((∃ e, d.WalletHas m.worker = .error e) ∨ d.WalletHas m.worker = .ok false)) ∧
      ((Run d m tr).2.2 ≠ none →
        (Run d m tr).1 = m ∧ (Run d m tr).2.1 = tr ++ [Effect.WalletHas m.worker]) ∧
      (d.WalletHas m.worker = .ok true →
        Run d m tr =
          ({ h := m.h, sealer := m.sealer, ds := m.ds, tktFn := m.tktFn, maddr := m.maddr,
              worker := m.worker,
              sealing := some (d.sealingNew d.NewEvents m.maddr m.worker m.ds m.sealer m.tktFn) },
            tr ++ [Effect.WalletHas m.worker, Effect.NewEvents,
              Effect.SealingNew d.NewEvents m.maddr m.worker m.ds m.sealer m.tktFn,
              Effect.SealingRun
                (d.sealingNew d.NewEvents m.maddr m.worker m.ds m.sealer m.tktFn)],
            none)) := by
  cases hw : d.WalletHas m.worker with
  | error e => simp [Run, runPreflightChecks, hw]
  | ok has =>
    cases has with
    | false => simp [Run, runPreflightChecks, hw]
    | true => simp [Run, runPreflightChecks, hw]

theorem C9_run_fails_closed_without_worker_key_witness :
    (Run depsNoKey minerNew []).2.2 ≠ none ∧
      (Run depsNoKey minerNew []).1 = minerNew ∧
      (Run depsNoKey minerNew []).2.1 = [Effect.WalletHas 200] ∧
      Run depsWithKey minerNew [] =
        ({ minerNew with sealing := some 6 },
          [Effect.WalletHas 200, Effect.NewEvents, Effect.SealingNew 5 100 200 3 2 4,
            Effect.SealingRun 6], none) :=
  ⟨by decide,
    ((C9_run_fails_closed_without_worker_key depsNoKey minerNew []).2.1 (by decide)).1,
    ((C9_run_fails_closed_without_worker_key depsNoKey minerNew []).2.1 (by decide)).2,
    (C9_run_fails_closed_without_worker_key depsWithKey minerNew []).2.2 rfl⟩

/-! ### The election proof adapter -/

theorem foldl_collect (winners : List PoStCandidateWithTicket) :
    ∀ acc : List PoStCandidate,
      winners.foldl (fun owins w => owins ++ [w.Candidate]) acc =
        acc ++ winners.map (fun w => w.Candidate) := by
  induction winners with
  | nil => intro acc; simp
  | cons w ws ih => intro acc; simp [ih]

theorem collectCandidates_eq_map (winners : List PoStCandidateWithTicket) :
    collectCandidates winners = winners.map (fun w => w.Candidate) := by
  simp [collectCandidates, foldl_collect]

/-- Claim C10.  With the insecure-validation flag set, `ComputeProof` returns
the one proof of bytes "valid proof" and no error, and makes no call to the
prover, whatever its arguments.  With the flag not set it makes exactly one
call to the prover, with the same sectors and randomness and with the
candidates of the winners in the order of the winners, as many as there are
winners, and it returns the proofs of the prover with no error, or the error of
the prover as it is with no proofs. -/
theorem C10_computeProof_fixed_or_delegated (prover : Prover) (ssi : List SectorInfo)
    (rand : List Nat) (winners : List PoStCandidateWithTicket) (tr : List ProverCall) :
    ComputeProof true prover ssi rand winners tr =
        (tr, [{ ProofBytes := validProofBytes }], none) ∧
      (ComputeProof false prover ssi rand winners tr).1 =
        tr ++ [{ ssi := ssi, rand := rand, winners := winners.map (fun w => w.Candidate) }] ∧
      (ComputeProof false prover ssi rand winners tr).2 =
        (match prover.ComputeElectionPoSt ssi rand (winners.map (fun w => w.Candidate)) with
          | .error err => ([], some err)
          | .ok proof => (proof, none)) ∧
      (collectCandidates winners).length = winners.length ∧
      (∀ (i : Nat) (w : PoStCandidateWithTicket), winners[i]? = some w →
        (collectCandidates winners)[i]? = some w.Candidate) := by
  refine ⟨rfl, ?_, ?_, ?_, ?_⟩
  · simp only [ComputeProof, collectCandidates_eq_map, Bool.false_eq_true, if_false]
    cases prover.ComputeElectionPoSt ssi rand (winners.map (fun w => w.Candidate)) <;> rfl
  · simp only [ComputeProof, collectCandidates_eq_map, Bool.false_eq_true, if_false]
    cases prover.ComputeElectionPoSt ssi rand (winners.map (fun w => w.Candidate)) <;> rfl
  · simp [collectCandidates_eq_map]
  · intro i w hw
    simp [collectCandidates_eq_map, List.getElem?_map, hw]

theorem C10_computeProof_fixed_or_delegated_witness :
    ComputeProof true proverEcho [1, 2] [9] [{ Candidate := 7, Ticket := [0] },
        { Candidate := 5, Ticket := [1] }] [] =
        ([], [{ ProofBytes := validProofBytes }], none) ∧
      (ComputeProof false proverEcho [1, 2] [9] [{ Candidate := 7, Ticket := [0] },
        { Candidate := 5, Ticket := [1] }] []).1 =
        [{ ssi := [1, 2], rand := [9], winners := [7, 5] }] :=
  ⟨(C10_computeProof_fixed_or_delegated proverEcho [1, 2] [9]
      [{ Candidate := 7, Ticket := [0] }, { Candidate := 5, Ticket := [1] }] []).1,
    (C10_computeProof_fixed_or_delegated proverEcho [1, 2] [9]
      [{ Candidate := 7, Ticket := [0] }, { Candidate := 5, Ticket := [1] }] []).2.1⟩

end storage

end Lotus
